import Mathlib

/-!
Verification development for the Kandel backtester repository.

The definitions below are shallow embeddings of the Python sources:
`src/order_book_v2.py` (the order ladder), `src/order_book.py` (the legacy
ladder builder), `src/kandel.py` (the strategy controller) and
`src/kandel_backtester.py` (the backtest driver).  Machine floats are
embedded as exact rationals; Python exceptions become `Option`/`Except`
results.  Parts of the repository that the sources import but that are not
present (the `order_v2` data module and the tick-math helpers
`price_to_tick` / `tick_to_price`) are modelled from the specification and
are marked as such in their doc comments.
-/

/-- Modelled from the spec: the order side enumeration (`OrderType` in the
missing `src/order_v2.py`, re-exported to `order_book_v2.py`); spec section 3
prescribes a tagged two-variant type `Bid | Ask`. -/
inductive OrderType where
  | bid
  | ask
deriving DecidableEq, Repr

/-- Modelled from the spec: the `Order` record of the missing
`src/order_v2.py`, with exactly the fields `order_book_v2.py` reads:
a side, a base quantity and a price (spec section 3 data model). -/
structure Order where
  order_type : OrderType
  qty : ℚ
  price : ℚ
deriving DecidableEq, Repr

/-- The order ladder of `src/order_book_v2.py` (`class OrderBook`): a list of
resting orders, the stored reference price, and the active price grid set by
`build_book`. -/
structure OrderBook where
  orders : List Order
  current_price : ℚ
  price_grid : List ℚ
deriving DecidableEq, Repr

/-- `OrderBook.build_book` from `src/order_book_v2.py` (lines 57-80): stores
the grid; an empty grid clears the ladder and returns; otherwise with
`n = len(price_grid) - 1` it creates Bids of size `capital/price/n` on the
first `n / 2` grid prices and Asks of size `capital/current_price/n` on the
grid prices after index `n / 2`.  `none` models the `ZeroDivisionError` the
comprehensions raise: the Bid comprehension (line 69) divides by each Bid
grid price, so it raises when a price in that slice is 0, and the Ask
comprehension (line 76) divides by the stored reference price, so it raises
when that price is 0 and the Ask slice is nonempty.  (The division by `n`
never raises on an evaluated element: the slices are nonempty only when the
grid has at least two points, where `n ≥ 1`.)  On the raising path the
Python object has already stored the new grid and replaced `orders` by an
uninitialised `np.empty` array; `none` discards the book instead, and no
theorem below inspects a ladder after a failed build. -/
def build_book (book : OrderBook) (capital : ℚ) (price_grid : List ℚ) :
    Option OrderBook :=
  if price_grid = [] then
    some { book with orders := [], price_grid := price_grid }
  else if ∃ p ∈ price_grid.take ((price_grid.length - 1) / 2), p = 0 then
    none
  else if book.current_price = 0 ∧
      price_grid.drop ((price_grid.length - 1) / 2 + 1) ≠ [] then
    none
  else
    some { book with
      orders :=
        (price_grid.take ((price_grid.length - 1) / 2)).map
          (fun p => { order_type := OrderType.bid,
                      qty := capital / p / ((price_grid.length - 1 : ℕ) : ℚ),
                      price := p }) ++
        (price_grid.drop ((price_grid.length - 1) / 2 + 1)).map
          (fun p => { order_type := OrderType.ask,
                      qty := capital / book.current_price /
                        ((price_grid.length - 1 : ℕ) : ℚ),
                      price := p }),
      price_grid := price_grid }

/-- Python's `list.index`: position of the first occurrence, `none` models the
`ValueError` raised when the element is absent. -/
def pyIndex (l : List ℚ) (p : ℚ) : Option ℕ :=
  match l with
  | [] => none
  | x :: xs => if x = p then some 0 else (pyIndex xs p).map (· + 1)

/-- Python's list subscription `l[i]`: non-negative indices must be in range,
negative indices wrap from the end (`l[-1]` is the last element), anything
else models the `IndexError`. -/
def pyGet (l : List α) (i : ℤ) : Option α :=
  if 0 ≤ i then l.get? i.toNat
  else if -(l.length : ℤ) ≤ i then l.get? (l.length - (-i).toNat)
  else none

/-- The scan loop of `OrderBook.add_order` (`src/order_book_v2.py` lines
87-105), entered per source only when the new order is not priced strictly
below the first resting order.  At each position: merge quantities on an
exact price-and-side match; insert before an equal price of the other side;
append after the last element when it is cheaper; insert between two
neighbours that bracket the price; otherwise continue.  `none` models the
loop falling through without returning (the Python method then mutates
nothing). -/
def addLoop (o : Order) : List Order → Option (List Order)
  | [] => none
  | x :: xs =>
    if o.price = x.price ∧ o.order_type = x.order_type then
      some ({ x with qty := x.qty + o.qty } :: xs)
    else if o.price = x.price then
      some (o :: x :: xs)
    else if x.price < o.price ∧ xs = [] then
      some [x, o]
    else
      match xs with
      | [] => none
      | y :: ys =>
        if x.price < o.price ∧ o.price < y.price then
          some (x :: o :: y :: ys)
        else
          (addLoop o (y :: ys)).map (x :: ·)

/-- `OrderBook.add_order` on the raw order list: the unguarded read of
`orders[0]` makes the empty ladder raise `IndexError` (modelled by `none`);
otherwise an order cheaper than the whole ladder is prepended, and the scan
loop `addLoop` handles the rest (a fall-through leaves the list unchanged). -/
def addOrderL (o : Order) (l : List Order) : Option (List Order) :=
  match l with
  | [] => none
  | x :: xs =>
    if o.price < x.price then some (o :: x :: xs)
    else some ((addLoop o (x :: xs)).getD (x :: xs))

/-- `OrderBook.add_order` from `src/order_book_v2.py` (lines 82-105). -/
def add_order (o : Order) (book : OrderBook) : Option OrderBook :=
  (addOrderL o book.orders).map (fun os => { book with orders := os })

/-- The per-transaction loop of `OrderBook.place_dual_offers`
(`src/order_book_v2.py` lines 112-138), accumulating the quote and base
inventory deltas.  The side was fixed from the first transaction; for a Bid
fill the ladder gains an Ask of the same quantity one grid index above the
fill's price, for an Ask fill a Bid one grid index below with quantity
`qty * price / new_price`.  `none` models the exceptions of `list.index`,
subscription and `add_order`. -/
def pdLoop (side : OrderType) (grid : List ℚ) :
    List Order → List Order → ℚ → ℚ → Option (List Order × ℚ × ℚ)
  | [], orders, qch, bch => some (orders, qch, bch)
  | t :: ts, orders, qch, bch =>
    match side with
    | OrderType.bid => do
      let i ← pyIndex grid t.price
      let p ← pyGet grid ((i : ℤ) + 1)
      let os ← addOrderL { order_type := OrderType.ask, qty := t.qty, price := p } orders
      pdLoop side grid ts os (qch - t.price * t.qty) (bch + t.qty)
    | OrderType.ask => do
      let i ← pyIndex grid t.price
      let p ← pyGet grid ((i : ℤ) - 1)
      let os ← addOrderL
        { order_type := OrderType.bid, qty := t.qty * t.price / p, price := p } orders
      pdLoop side grid ts os (qch + t.price * t.qty) (bch - t.qty)

/-- `OrderBook.place_dual_offers` from `src/order_book_v2.py` (lines
107-140): the accounting side of the whole batch is read from the first
transaction (`none` models the `IndexError` on an empty batch). -/
def place_dual_offers (ts : List Order) (book : OrderBook) :
    Option (OrderBook × ℚ × ℚ) :=
  match ts with
  | [] => none
  | t :: _ =>
    (pdLoop t.order_type book.price_grid ts book.orders 0 0).map
      (fun r => ({ book with orders := r.1 }, r.2.1, r.2.2))

/-- `OrderBook.arbitrate` from `src/order_book_v2.py` (lines 142-177): on a
price drop every Bid priced at or above the new spot is filled and removed,
on a rise every Ask priced at or below it; the reference price is always
updated to the spot. -/
def arbitrate (spot_price : ℚ) (book : OrderBook) : List Order × OrderBook :=
  if spot_price < book.current_price then
    (book.orders.filter
       (fun o => decide (o.order_type = OrderType.bid ∧ spot_price ≤ o.price)),
     { book with
       orders := book.orders.filter
         (fun o => decide ((o.order_type = OrderType.bid ∧ spot_price > o.price) ∨
                            o.order_type = OrderType.ask)),
       current_price := spot_price })
  else if spot_price > book.current_price then
    (book.orders.filter
       (fun o => decide (o.order_type = OrderType.ask ∧ spot_price ≥ o.price)),
     { book with
       orders := book.orders.filter
         (fun o => decide ((o.order_type = OrderType.ask ∧ spot_price < o.price) ∨
                            o.order_type = OrderType.bid)),
       current_price := spot_price })
  else
    ([], { book with current_price := spot_price })

/-- One fill-and-replenish cycle as driven by `Kandel.update_kandel_state`
(`src/kandel.py` lines 227-234): `arbitrate` at the new spot, then
`place_dual_offers` on the returned fills when there are any. -/
def cycle (spot : ℚ) (book : OrderBook) : Option OrderBook :=
  let r := arbitrate spot book
  if r.1 = [] then some r.2 else (place_dual_offers r.1 r.2).map (·.1)

/-- A whole sequence of fill-and-replenish cycles. -/
def runCycles (spots : List ℚ) (book : OrderBook) : Option OrderBook :=
  spots.foldlM (fun b s => cycle s b) book

/-- The ladder self-crosses when some resting Bid is priced at or above some
resting Ask; `NoCross` states that this never happens. -/
def NoCross (l : List Order) : Prop :=
  ∀ x ∈ l, ∀ y ∈ l,
    x.order_type = OrderType.bid → y.order_type = OrderType.ask → x.price < y.price

instance : DecidablePred NoCross := fun l => by
  unfold NoCross; infer_instance

/-- The validation prefix of the legacy module-level `build_book`
(`src/order_book.py` lines 263-272): capital, grid size and initial price are
checked in that order and a violation raises before anything is allocated.
The successful continuation (whose value flows through the floating-point
square roots of `initial_inventory_allocation`) is collapsed to `Unit`: the
claims below concern only whether construction aborts, and an `error` result
is produced strictly before any ladder state exists. -/
def buildBookV1Check (capital : ℚ) (price_grid : List ℚ) (initial_price : ℚ) :
    Except String Unit :=
  if capital ≤ 0 then Except.error "Capital must be positive."
  else if price_grid.length < 2 then
    Except.error "Price grid must contains at least two points."
  else if initial_price ≤ 0 then
    Except.error "Current price need to be superior to 0"
  else Except.ok ()

/-- C-style float-to-int conversion (numpy's `dtype=int` cast): truncation
toward zero. -/
def truncQ (q : ℚ) : ℤ :=
  if 0 ≤ q then ⌊q⌋ else ⌈q⌉

/-- `np.unique`: the distinct values of a list, in increasing order (sort,
then drop adjacent duplicates). -/
def uniqueSorted (l : List ℤ) : List ℤ :=
  (l.insertionSort (· ≤ ·)).destutter (· ≠ ·)

/-- The pure tail of `Kandel._update_ticks_grid` (`src/kandel.py` lines
146-156): `np.unique(np.linspace(min_tick, max_tick, n_points*2 + 1,
dtype=int)).tolist()`, then the last tick is dropped if the deduplicated
count is not odd.  `np.linspace` places `n_points*2 + 1` evenly spaced values
from `min_tick` to `max_tick` inclusive; the integer dtype truncates each
value toward zero. -/
def linspaceInt (min_tick max_tick : ℤ) (num : ℕ) : List ℤ :=
  (List.range num).map
    (fun (i : ℕ) => truncQ ((min_tick : ℚ) +
      ((max_tick : ℚ) - (min_tick : ℚ)) * (i : ℚ) / ((num : ℚ) - 1)))

/-- The odd-length restoration step of `_update_ticks_grid`: drop the last
tick when deduplication left an even count. -/
def postOdd (g : List ℤ) : List ℤ :=
  if g.length % 2 ≠ 1 then g.dropLast else g

/-- The full grid computation tail: evenly spaced truncated values,
deduplicated and sorted, odd length restored. -/
def ticksGridFrom (min_tick max_tick : ℤ) (n_points : ℕ) : List ℤ :=
  postOdd (uniqueSorted (linspaceInt min_tick max_tick (n_points * 2 + 1)))

/-- The strategy configuration of `src/kandel.py` (`KandelConfig`). -/
structure KandelConfig where
  initial_capital : ℚ
  decimals_diff : ℤ
  performance_fees : ℚ
  vol_mult : ℚ
  range_mult : ℚ
  n_points : ℕ
  step_size : ℕ
  window : ℕ
  exit_vol_threshold : ℚ
  asymmetric_exit_threshold : ℚ
deriving DecidableEq, Repr

/-- The configuration fields actually read by the grid computation
`Kandel._update_ticks_grid` (`src/kandel.py` lines 128-144): the volatility
multiplier, the static range multiplier, the point count and the decimals
offset.  `step_size` is not among them. -/
structure GridParams where
  vol_mult : ℚ
  range_mult : ℚ
  n_points : ℕ
  decimals_diff : ℤ
deriving DecidableEq, Repr

/-- Projection of a full configuration onto the grid-relevant fields. -/
def gridParamsOf (cfg : KandelConfig) : GridParams :=
  { vol_mult := cfg.vol_mult, range_mult := cfg.range_mult,
    n_points := cfg.n_points, decimals_diff := cfg.decimals_diff }

/-- Modelled from the spec: the tick math of section 4.1
(`price_to_tick(p, d) = floor(ln(p / 10^d) / ln 1.0001)`,
`tick_to_price(t, d) = 1.0001^t * 10^d`) and the min/max-tick bounds of
`_update_ticks_grid` (which raise the grid step, an exponential of the
volatility, to the point count).  The defining module is imported by
`src/kandel.py` but absent from the sources, and the functions are
irrational-valued, so they are carried as an abstract parameter record: every
theorem quantifying over a `TickMath` holds for the real functions in
particular.  `bounds` receives exactly the configuration fields the source
computation reads (`GridParams`), the spot price and the volatility. -/
structure TickMath where
  p2t : ℚ → ℤ → ℤ
  t2p : ℤ → ℤ → ℚ
  bounds : GridParams → ℚ → ℚ → ℤ × ℤ

/-- Modelled from the spec: an order of the tick-indexed ladder owned by
`src/kandel.py` (data model of section 3: side, integer tick, base quantity,
and the price derived from the tick). -/
structure TOrder where
  order_type : OrderType
  tick : ℤ
  qty : ℚ
  price : ℚ
deriving DecidableEq, Repr

/-- Modelled from the spec: the tick-indexed order ladder of section 4.2
(the `OrderBook(initial_price, decimals_diff)` that `src/kandel.py`
instantiates; its module is absent from the sources): resting orders, the
stored reference price, the decimals offset and the active tick grid. -/
structure TickBook where
  orders : List TOrder
  current_price : ℚ
  decimals_diff : ℤ
  ticks_grid : List ℤ
deriving DecidableEq, Repr

/-- Modelled from the spec: `build_book(capital, ticksGrid)` of section 4.2.
An empty grid clears the ladder (as `Kandel.exit` relies on); otherwise with
`n = len(ticksGrid) - 1` it emits `n` orders: Bids sized
`capital / price_at_tick / n` on the ticks below the first-ask index (the
index of the first grid tick strictly above the tick of the current
reference price), Asks sized `capital / current_price / n` on the ticks
after it, the grid point nearest the reference price itself carrying no
order. -/
def buildBookT (tm : TickMath) (book : TickBook) (capital : ℚ)
    (ticks_grid : List ℤ) : TickBook :=
  if ticks_grid = [] then
    { book with orders := [], ticks_grid := ticks_grid }
  else
    let n := ticks_grid.length - 1
    let curTick := tm.p2t book.current_price book.decimals_diff
    let fa := (ticks_grid.takeWhile (fun t => t ≤ curTick)).length
    let bids := (ticks_grid.take fa).map
      (fun t => let p := tm.t2p t book.decimals_diff
                { order_type := OrderType.bid, tick := t,
                  qty := capital / p / (n : ℚ), price := p })
    let asks := (ticks_grid.drop (fa + 1)).map
      (fun t => let p := tm.t2p t book.decimals_diff
                { order_type := OrderType.ask, tick := t,
                  qty := capital / book.current_price / (n : ℚ), price := p })
    { book with orders := bids ++ asks, ticks_grid := ticks_grid }

/-- Modelled from the spec: `add_order` of section 4.2 on the tick ladder —
merge quantities on an existing order of the same tick and side, otherwise
insert in tick order. -/
def addOrderT (o : TOrder) : List TOrder → List TOrder
  | [] => [o]
  | x :: xs =>
    if o.tick = x.tick ∧ o.order_type = x.order_type then
      { x with qty := x.qty + o.qty } :: xs
    else if o.tick ≤ x.tick then o :: x :: xs
    else x :: addOrderT o xs

/-- Modelled from the spec: `arbitrate(spotPrice)` of section 4.2 on the tick
ladder, with the same matching rule as `order_book_v2.py`: a fall fills every
Bid priced at or above the spot, a rise every Ask priced at or below it, and
the reference price is updated. -/
def arbitrateT (spot : ℚ) (book : TickBook) : List TOrder × TickBook :=
  if spot < book.current_price then
    (book.orders.filter
       (fun o => decide (o.order_type = OrderType.bid ∧ spot ≤ o.price)),
     { book with
       orders := book.orders.filter
         (fun o => decide ((o.order_type = OrderType.bid ∧ spot > o.price) ∨
                            o.order_type = OrderType.ask)),
       current_price := spot })
  else if spot > book.current_price then
    (book.orders.filter
       (fun o => decide (o.order_type = OrderType.ask ∧ spot ≥ o.price)),
     { book with
       orders := book.orders.filter
         (fun o => decide ((o.order_type = OrderType.ask ∧ spot < o.price) ∨
                            o.order_type = OrderType.bid)),
       current_price := spot })
  else
    ([], { book with current_price := spot })

/-- Modelled from the spec: the per-fill loop of `place_dual_offers` of
section 4.2 on the tick ladder — a filled Bid at grid index `i` yields an Ask
at grid index `i+1` with the same base quantity, a filled Ask at `i` a Bid at
`i-1` with quantity `qty * price / newPrice`, and the net quote/base deltas
are accumulated (negative quote and positive base for Bid fills, the
opposite for Ask fills). -/
def pdLoopT (tm : TickMath) (dd : ℤ) (side : OrderType) (grid : List ℤ) :
    List TOrder → List TOrder → ℚ → ℚ → List TOrder × ℚ × ℚ
  | [], os, qch, bch => (os, qch, bch)
  | t :: ts, os, qch, bch =>
    match side with
    | OrderType.bid =>
      let i := grid.indexOf t.tick
      let nt := grid.getD (i + 1) t.tick
      let p := tm.t2p nt dd
      pdLoopT tm dd side grid ts
        (addOrderT { order_type := OrderType.ask, tick := nt, qty := t.qty, price := p } os)
        (qch - t.price * t.qty) (bch + t.qty)
    | OrderType.ask =>
      let i := grid.indexOf t.tick
      let nt := grid.getD (i - 1) t.tick
      let p := tm.t2p nt dd
      pdLoopT tm dd side grid ts
        (addOrderT { order_type := OrderType.bid, tick := nt,
                     qty := t.qty * t.price / p, price := p } os)
        (qch + t.price * t.qty) (bch - t.qty)

/-- Modelled from the spec: `place_dual_offers(transactions)` of section 4.2
on the tick ladder; like its `order_book_v2.py` counterpart it takes the
accounting side of the whole batch from the first transaction. -/
def pdOffersT (tm : TickMath) (book : TickBook) (ts : List TOrder) :
    TickBook × ℚ × ℚ :=
  match ts with
  | [] => (book, 0, 0)
  | t :: _ =>
    let r := pdLoopT tm book.decimals_diff t.order_type book.ticks_grid ts book.orders 0 0
    ({ book with orders := r.1 }, r.2.1, r.2.2)

/-- The strategy state of `src/kandel.py` (`class Kandel`), minus the
immutable configuration, which the functions below take as an argument. -/
structure Kandel where
  spot_price : ℚ
  base : ℚ
  quote : ℚ
  open_price : ℚ
  open_capital : ℚ
  vol : ℚ
  ticks_grid : List ℤ
  order_book : TickBook
  is_active : Bool
deriving DecidableEq, Repr

/-- `Kandel._update_ticks_grid` (`src/kandel.py` lines 128-156): the min/max
ticks come from the tick math on the spot price, volatility and the
grid-relevant configuration fields, and the integer grid from the pure
`ticksGridFrom` tail. -/
def update_ticks_grid (tm : TickMath) (cfg : KandelConfig) (k : Kandel) : List ℤ :=
  let b := tm.bounds (gridParamsOf cfg) k.spot_price k.vol
  ticksGridFrom b.1 b.2 cfg.n_points

/-- `Kandel.should_exit` (`src/kandel.py` lines 204-212): pure comparison of
the exit volatility against the configured threshold. -/
def should_exit (cfg : KandelConfig) (exit_vol : ℚ) : Bool :=
  decide (exit_vol > cfg.exit_vol_threshold)

/-- `Kandel.exit` (`src/kandel.py` lines 186-202): skew the inventory by the
trend since the open price (25/75, 75/25 or 50/50 in quote), clear the
ladder via `build_book(0, [])` and deactivate. -/
def exitK (tm : TickMath) (cfg : KandelConfig) (k : Kandel) : Kandel :=
  let ocr := k.spot_price / k.open_price - 1
  let v := k.quote + k.base * k.spot_price
  let qb :=
    if ocr > cfg.asymmetric_exit_threshold then
      let q := v * (1 / 4); (q, q * 3 / k.spot_price)
    else if ocr < -cfg.asymmetric_exit_threshold then
      let q := v * (3 / 4); (q, q / 3 / k.spot_price)
    else
      let q := v / 2; (q, q / k.spot_price)
  { k with quote := qb.1, base := qb.2,
           order_book := buildBookT tm k.order_book 0 [],
           is_active := false }

/-- `Kandel.rebalance` (`src/kandel.py` lines 158-184): refresh the grid,
mark capital to the spot, charge the performance fee only above the previous
rebalance's capital, rebuild the ladder 50/50 on the post-fee capital at the
current spot, record the new open price and open capital, reactivate, and
return the fee. -/
def rebalanceK (tm : TickMath) (cfg : KandelConfig) (k : Kandel) : Kandel × ℚ :=
  let grid := update_ticks_grid tm cfg k
  let capital := k.quote + k.base * k.spot_price
  let fees :=
    if capital > k.open_capital then (capital - k.open_capital) * cfg.performance_fees
    else 0
  let capital' := capital - fees
  let ob := buildBookT tm { k.order_book with current_price := k.spot_price } capital' grid
  ({ k with ticks_grid := grid, order_book := ob,
            quote := capital' / 2, base := capital' / 2 / k.spot_price,
            open_price := k.spot_price, open_capital := capital',
            is_active := true }, fees)

/-- `Kandel.__init__` (`src/kandel.py` lines 90-126): split the initial
capital 50/50 at the spot, compute the grid, build the ladder, start Active,
and exit immediately if the initial exit volatility demands it. -/
def initKandel (tm : TickMath) (cfg : KandelConfig) (spot vol exit_vol : ℚ) : Kandel :=
  let b := tm.bounds (gridParamsOf cfg) spot vol
  let grid := ticksGridFrom b.1 b.2 cfg.n_points
  let ob := buildBookT tm
    { orders := [], current_price := spot, decimals_diff := cfg.decimals_diff,
      ticks_grid := [] } cfg.initial_capital grid
  let k : Kandel :=
    { spot_price := spot, base := cfg.initial_capital / 2 / spot,
      quote := cfg.initial_capital / 2, open_price := spot,
      open_capital := cfg.initial_capital, vol := vol, ticks_grid := grid,
      order_book := ob, is_active := true }
  if should_exit cfg exit_vol then exitK tm cfg k else k

/-- `Kandel.update_kandel_state` (`src/kandel.py` lines 214-237): store the
new spot and volatility; when Active, arbitrate the ladder, replenish via
`place_dual_offers` when fills occurred and apply the returned inventory
deltas, then exit if the exit volatility demands it. -/
def update_kandel_state (tm : TickMath) (cfg : KandelConfig) (k : Kandel)
    (spot wvol evol : ℚ) : Kandel :=
  let k1 := { k with spot_price := spot, vol := wvol }
  if k1.is_active then
    let r := arbitrateT spot k1.order_book
    let k2 :=
      if r.1 = [] then { k1 with order_book := r.2 }
      else
        let pd := pdOffersT tm r.2 r.1
        { k1 with order_book := pd.1,
                  quote := k1.quote + pd.2.1, base := k1.base + pd.2.2 }
    if should_exit cfg evol then exitK tm cfg k2 else k2
  else k1

/-- The strategy interface the backtest driver uses (`self.kandel` in
`src/kandel_backtester.py`): the state update, the rebalance, the exit
predicate, the balance/snapshot projections and the rebalance window.  The
driver is embedded generically in this interface, so its theorems hold for
every strategy implementation, the `Kandel` model included; `τ` is the type
of a recorded fill. -/
structure Strat (σ : Type) (τ : Type) where
  update : σ → ℚ → ℚ → ℚ → σ
  rebal : σ → σ × ℚ
  shouldEx : σ → ℚ → Bool
  quoteOf : σ → ℚ
  baseOf : σ → ℚ
  snapOf : σ → List ℚ × List ℚ
  window : ℕ

/-- One yielded row of `KandelBacktester._generate_kandel_states`
(`src/kandel_backtester.py` lines 114-120). -/
structure DriverRow (τ : Type) where
  base : ℚ
  quote : ℚ
  snap : List ℚ × List ℚ
  transactions : List τ
  generated_fees : ℚ
deriving DecidableEq, Repr

/-- `KandelBacktester._generate_kandel_states` (`src/kandel_backtester.py`
lines 88-120), over the aligned (price, window-vol, exit-vol) triples with
the running step index: each step initialises `transactions = []` and
`generated_fees = 0`, calls `update_kandel_state`, rebalances on indices
that are multiples of the window unless the strategy would exit at the
current exit volatility, and yields the row — with the untouched local
`transactions` list.  (A zero window raises in Python; the embedding uses
`i % 0 = i`, and nothing proved below depends on the window.) -/
def genStates (st : Strat σ τ) :
    List (ℚ × ℚ × ℚ) → ℕ → σ → List (DriverRow τ) × σ
  | [], _, k => ([], k)
  | (p, wv, ev) :: rest, i, k =>
    let transactions : List τ := []
    let k1 := st.update k p wv ev
    let kf :=
      if i % st.window = 0 ∧ ¬(st.shouldEx k1 ev) then st.rebal k1 else (k1, 0)
    let row : DriverRow τ :=
      { base := st.baseOf kf.1, quote := st.quoteOf kf.1, snap := st.snapOf kf.1,
        transactions := transactions, generated_fees := kf.2 }
    let rest' := genStates st rest (i + 1) kf.1
    (row :: rest'.1, rest'.2)

/-- `KandelBacktester.run` (`src/kandel_backtester.py` lines 122-157):
collects, per step, the quote/base balances and fee into the result table,
always appends the row's `transactions` to the transaction history, and
records the ladder snapshot only when `position_history` is enabled. -/
def runDriver (st : Strat σ τ) (position_history : Bool)
    (inputs : List (ℚ × ℚ × ℚ)) (k0 : σ) :
    List (ℚ × ℚ × ℚ) × List (Option (List ℚ × List ℚ)) × List (List τ) :=
  let rows := (genStates st inputs 0 k0).1
  (rows.map (fun r => (r.quote, r.base, r.generated_fees)),
   rows.map (fun r => if position_history then some r.snap else none),
   rows.map (fun r => r.transactions))

/-- The `Kandel` strategy model plugged into the driver interface, with the
ladder snapshot taken as in `OrderBook.to_dict` (bid prices and ask
prices). -/
def kandelStrat (tm : TickMath) (cfg : KandelConfig) : Strat Kandel TOrder :=
  { update := update_kandel_state tm cfg,
    rebal := rebalanceK tm cfg,
    shouldEx := fun _ ev => should_exit cfg ev,
    quoteOf := fun k => k.quote,
    baseOf := fun k => k.base,
    snapOf := fun k =>
      ((k.order_book.orders.filter (fun o => decide (o.order_type = OrderType.bid))).map
         (fun o => o.price),
       (k.order_book.orders.filter (fun o => decide (o.order_type = OrderType.ask))).map
         (fun o => o.price)),
    window := cfg.window }

/-- The ladder never holds an Ask priced at or below the bottom grid price;
together with `NoCross` this is the invariant preserved by the
fill-and-replenish cycle. -/
def AskFloor (grid : List ℚ) (l : List Order) : Prop :=
  ∀ o ∈ l, o.order_type = OrderType.ask → ∀ g0 ∈ grid.head?, g0 < o.price

/-- A concrete tick-math instantiation (prices one above the tick, floors one
below the price, static bounds), used to evaluate the parameterised strategy
model on closed inputs. -/
def tmEx : TickMath :=
  { p2t := fun _ _ => 0,
    t2p := fun t _ => (t : ℚ) + 1,
    bounds := fun _ _ _ => (0, 2) }

/-- A concrete strategy configuration for closed evaluations. -/
def cfgEx : KandelConfig :=
  { initial_capital := 100, decimals_diff := 0, performance_fees := 1/2,
    vol_mult := 0, range_mult := 2, n_points := 1, step_size := 1,
    window := 2, exit_vol_threshold := 1, asymmetric_exit_threshold := 1/10 }

/-- `cfgEx` with a different replenishment skip distance and nothing else
changed. -/
def cfgEx' : KandelConfig :=
  { cfgEx with step_size := 5 }

/-- The strategy state `cfgEx` produces at spot 2 with zero volatility. -/
def kEx : Kandel := initKandel tmEx cfgEx 2 0 0

/-- The `place_dual_offers` result a batch of Bid fills is specified to
produce: each fill adds, through `add_order`, an Ask of the same quantity at
the grid price one index above the fill's own grid position, and the deltas
are minus the summed notional on quote and the summed quantity on base. -/
def gridNextPrice (grid : List ℚ) (p : ℚ) : ℚ :=
  grid.getD ((pyIndex grid p).getD grid.length + 1) 0

/-- The grid price one index below a fill's grid position (only meaningful
away from the bottom of the grid). -/
def gridPrevPrice (grid : List ℚ) (p : ℚ) : ℚ :=
  grid.getD ((pyIndex grid p).getD grid.length - 1) 0

/-- Specification-side restatement of `place_dual_offers` for a batch of Bid
fills (spec section 4.2): fold `add_order` over the dual Asks and return the
net deltas. -/
def pdSpecBid (ts : List Order) (b : OrderBook) : Option (OrderBook × ℚ × ℚ) :=
  (ts.foldlM
    (fun os t => addOrderL
      { order_type := OrderType.ask, qty := t.qty,
        price := gridNextPrice b.price_grid t.price } os) b.orders).map
    (fun os => ({ b with orders := os },
                -((ts.map (fun t => t.price * t.qty)).sum),
                (ts.map (fun t => t.qty)).sum))

/-- Specification-side restatement of `place_dual_offers` for a batch of Ask
fills: fold `add_order` over the dual Bids (quantity `qty * price /
newPrice`) and return the net deltas. -/
def pdSpecAsk (ts : List Order) (b : OrderBook) : Option (OrderBook × ℚ × ℚ) :=
  (ts.foldlM
    (fun os t => addOrderL
      { order_type := OrderType.bid,
        qty := t.qty * t.price / gridPrevPrice b.price_grid t.price,
        price := gridPrevPrice b.price_grid t.price } os) b.orders).map
    (fun os => ({ b with orders := os },
                (ts.map (fun t => t.price * t.qty)).sum,
                -((ts.map (fun t => t.qty)).sum)))

/-- `cfgEx` with a performance-fee rate of exactly 1 (a value the claimed
fee property excludes for no stated reason). -/
def cfgFee1 : KandelConfig :=
  { cfgEx with performance_fees := 1 }

/-- A strategy state holding 200 in quote against an open capital of 100,
used to evaluate `rebalance` on closed inputs. -/
def kC5ex : Kandel :=
  { spot_price := 1, base := 0, quote := 200, open_price := 1,
    open_capital := 100, vol := 0, ticks_grid := [],
    order_book := { orders := [], current_price := 1, decimals_diff := 0,
                    ticks_grid := [] },
    is_active := true }

theorem arbitrate_current_price (spot : ℚ) (b : OrderBook) :
    (arbitrate spot b).2.current_price = spot := by
  unfold arbitrate
  split_ifs <;> rfl

theorem arbitrate_grid (spot : ℚ) (b : OrderBook) :
    (arbitrate spot b).2.price_grid = b.price_grid := by
  unfold arbitrate
  split_ifs <;> rfl

theorem arbitrate_at_current (spot : ℚ) (b : OrderBook)
    (h : b.current_price = spot) : (arbitrate spot b).1 = [] := by
  unfold arbitrate
  rw [h]
  simp

/-- C9: every transaction list returned by `arbitrate` is homogeneous in
side: all returned orders are Bids (price fell) or all are Asks (price
rose); this is the precondition `place_dual_offers` depends on when it takes
the accounting side of the whole batch from the first transaction. -/
theorem arbitrate_side_homogeneous (spot : ℚ) (b : OrderBook) :
    (∀ t ∈ (arbitrate spot b).1, t.order_type = OrderType.bid) ∨
    (∀ t ∈ (arbitrate spot b).1, t.order_type = OrderType.ask) := by
  unfold arbitrate
  split_ifs with h1 h2
  · left
    intro t ht
    rw [List.mem_filter] at ht
    exact (of_decide_eq_true ht.2).1
  · right
    intro t ht
    rw [List.mem_filter] at ht
    exact (of_decide_eq_true ht.2).1
  · left
    intro t ht
    simp at ht

/-- C1 counterexample: the claim describes the surviving orders after a price
fall as "all Bids still priced above spotPrice plus all Asks"; on a ladder
holding a single Bid at price 1 with reference price 3, arbitrating at spot 2
keeps that Bid (it is priced below the spot), while the claimed survivor set
is empty. -/
theorem arbitrate_survivors_cex :
    (2 : ℚ) < (3 : ℚ) ∧
    (arbitrate 2 { orders := [{ order_type := OrderType.bid, qty := 1, price := 1 }],
                   current_price := 3, price_grid := [1, 2, 3] }).2.orders ≠
      List.filter
        (fun o => decide ((o.order_type = OrderType.bid ∧ 2 < o.price) ∨
                           o.order_type = OrderType.ask))
        [{ order_type := OrderType.bid, qty := 1, price := 1 }] := by
  refine ⟨by norm_num, ?_⟩
  decide

/-- C1 (amended): when the price fell, `arbitrate` fills exactly the Bids
priced at or above the spot and the survivors are the Bids still priced
strictly BELOW the spot plus all Asks untouched; symmetrically on a rise
(fills are the Asks at or below the spot, survivors the Asks strictly above
it plus all Bids); no fills at an unchanged price; the stored reference
price becomes the spot, so an immediate repeat call fills nothing. -/
theorem arbitrate_matching_rule (spot : ℚ) (b : OrderBook) :
    (spot < b.current_price →
      (arbitrate spot b).1 =
        b.orders.filter
          (fun o => decide (o.order_type = OrderType.bid ∧ spot ≤ o.price)) ∧
      (arbitrate spot b).2.orders =
        b.orders.filter
          (fun o => decide ((o.order_type = OrderType.bid ∧ o.price < spot) ∨
                             o.order_type = OrderType.ask))) ∧
    (b.current_price < spot →
      (arbitrate spot b).1 =
        b.orders.filter
          (fun o => decide (o.order_type = OrderType.ask ∧ o.price ≤ spot)) ∧
      (arbitrate spot b).2.orders =
        b.orders.filter
          (fun o => decide ((o.order_type = OrderType.ask ∧ spot < o.price) ∨
                             o.order_type = OrderType.bid))) ∧
    (spot = b.current_price →
      (arbitrate spot b).1 = [] ∧ (arbitrate spot b).2.orders = b.orders) ∧
    (arbitrate spot b).2.current_price = spot ∧
    (arbitrate spot (arbitrate spot b).2).1 = [] := by
  refine ⟨?_, ?_, ?_, arbitrate_current_price spot b,
          arbitrate_at_current spot _ (arbitrate_current_price spot b)⟩
  · intro h
    unfold arbitrate
    rw [if_pos h]
    exact ⟨rfl, rfl⟩
  · intro h
    unfold arbitrate
    rw [if_neg (not_lt.mpr h.le), if_pos h]
    exact ⟨rfl, rfl⟩
  · intro h
    unfold arbitrate
    rw [h]
    simp

theorem arbitrate_matching_rule_witness :
    ((2 : ℚ) < (4 : ℚ)) ∧
    (arbitrate 2 { orders := [{ order_type := OrderType.bid, qty := 1, price := 1 },
                              { order_type := OrderType.bid, qty := 1, price := 3 },
                              { order_type := OrderType.ask, qty := 1, price := 9 }],
                   current_price := 4, price_grid := [1, 3, 5, 9] }).1 =
      [{ order_type := OrderType.bid, qty := 1, price := 3 }] ∧
    (arbitrate 2 { orders := [{ order_type := OrderType.bid, qty := 1, price := 1 },
                              { order_type := OrderType.bid, qty := 1, price := 3 },
                              { order_type := OrderType.ask, qty := 1, price := 9 }],
                   current_price := 4, price_grid := [1, 3, 5, 9] }).2.orders =
      [{ order_type := OrderType.bid, qty := 1, price := 1 },
       { order_type := OrderType.ask, qty := 1, price := 9 }] := by
  refine ⟨by norm_num, ?_⟩
  have h := (arbitrate_matching_rule 2
    { orders := [{ order_type := OrderType.bid, qty := 1, price := 1 },
                 { order_type := OrderType.bid, qty := 1, price := 3 },
                 { order_type := OrderType.ask, qty := 1, price := 9 }],
      current_price := 4, price_grid := [1, 3, 5, 9] }).1 (by norm_num)
  exact ⟨h.1.trans (by decide), h.2.trans (by decide)⟩

/-- C3 counterexample: `OrderBook.build_book` in `order_book_v2.py` performs
no validation — called with the non-positive capital -1 it does not fail and
still constructs a two-order ladder. -/
theorem build_book_v2_unvalidated_cex :
    ((-1 : ℚ) ≤ 0) ∧
    (build_book { orders := [], current_price := 1, price_grid := [] }
      (-1) [1, 2, 3]).map (fun b => b.orders.length) = some 2 := by
  refine ⟨by norm_num, ?_⟩
  decide

/-- C3 (amended): the legacy `build_book` of `order_book.py` does fail
immediately — error before any ladder state exists — on non-positive
capital, a grid of fewer than two points, or a non-positive initial price.
The ladder of `order_book_v2.py` performs none of these validations: an
empty grid always succeeds and clears the ladder (as `Kandel.exit` relies
on), and whenever every grid price and the stored reference price are
nonzero — so no order-size division hits zero — it succeeds for every
capital, grid length and reference-price sign, returning a book of
`len(price_grid) - 1` orders over the supplied grid. -/
theorem build_book_validation_split :
    (∀ (c : ℚ) (g : List ℚ) (p : ℚ), (c ≤ 0 ∨ g.length < 2 ∨ p ≤ 0) →
      ∃ msg, buildBookV1Check c g p = Except.error msg) ∧
    (∀ (bk : OrderBook) (c : ℚ),
      build_book bk c [] = some { bk with orders := [], price_grid := [] }) ∧
    (∀ (bk : OrderBook) (c : ℚ) (g : List ℚ),
      (∀ p ∈ g, p ≠ 0) → bk.current_price ≠ 0 →
      ∃ b', build_book bk c g = some b' ∧
        b'.orders.length = g.length - 1 ∧ b'.price_grid = g) := by
  refine ⟨?_, ?_, ?_⟩
  · intro c g p h
    unfold buildBookV1Check
    split_ifs with h1 h2 h3
    · exact ⟨_, rfl⟩
    · exact ⟨_, rfl⟩
    · exact ⟨_, rfl⟩
    · rcases h with h | h | h
      · exact absurd h h1
      · exact absurd h h2
      · exact absurd h h3
  · intro bk c
    unfold build_book
    rw [if_pos rfl]
  · intro bk c g hp hcp
    by_cases hg : g = []
    · subst hg
      refine ⟨{ bk with orders := [], price_grid := [] }, ?_, by simp, rfl⟩
      unfold build_book
      rw [if_pos rfl]
    · have hz1 : ¬∃ p ∈ g.take ((g.length - 1) / 2), p = 0 := by
        rintro ⟨p, hp', hp0⟩
        exact hp p (List.take_subset _ _ hp') hp0
      have hz2 : ¬(bk.current_price = 0 ∧
          g.drop ((g.length - 1) / 2 + 1) ≠ []) := by
        rintro ⟨h0, _⟩
        exact hcp h0
      refine ⟨{ bk with
          orders :=
            (g.take ((g.length - 1) / 2)).map
              (fun p => { order_type := OrderType.bid,
                          qty := c / p / ((g.length - 1 : ℕ) : ℚ),
                          price := p }) ++
            (g.drop ((g.length - 1) / 2 + 1)).map
              (fun p => { order_type := OrderType.ask,
                          qty := c / bk.current_price / ((g.length - 1 : ℕ) : ℚ),
                          price := p }),
          price_grid := g }, ?_, ?_, rfl⟩
      · unfold build_book
        rw [if_neg hg, if_neg hz1, if_neg hz2]
      · have hlen : 1 ≤ g.length := by
          cases g with
          | nil => exact absurd rfl hg
          | cons a l => simp
        simp only [List.length_append, List.length_map, List.length_take,
          List.length_drop]
        omega

theorem build_book_validation_split_witness :
    (∃ msg, buildBookV1Check 0 [1, 2] 1 = Except.error msg) ∧
    (build_book { orders := [], current_price := (3 : ℚ), price_grid := [7] }
      5 [] = some { orders := [], current_price := (3 : ℚ), price_grid := [] }) ∧
    (∃ b', build_book { orders := [], current_price := 1, price_grid := [] }
        (-1) [1, 2, 3] = some b' ∧
      b'.orders.length = 2 ∧ b'.price_grid = [1, 2, 3]) := by
  refine ⟨?_, ?_, ?_⟩
  · exact build_book_validation_split.1 0 [1, 2] 1 (Or.inl le_rfl)
  · exact build_book_validation_split.2.1
      { orders := [], current_price := (3 : ℚ), price_grid := [7] } 5
  · obtain ⟨b', hb', hlen, hgr⟩ := build_book_validation_split.2.2
      { orders := [], current_price := 1, price_grid := [] } (-1) [1, 2, 3]
      (by decide) (by norm_num)
    exact ⟨b', hb', by simpa using hlen, hgr⟩

/-- Deduplicating, sorting and odd-length-restoring any nonempty integer
list yields an odd-length, strictly increasing, duplicate-free grid. -/
theorem postOdd_uniqueSorted_spec (vals : List ℤ) (h : vals ≠ []) :
    Odd (postOdd (uniqueSorted vals)).length ∧
    List.Chain' (· < ·) (postOdd (uniqueSorted vals)) ∧
    (postOdd (uniqueSorted vals)).Nodup := by
  have hcomb : ∀ (L : List ℤ), List.Chain' (· ≤ ·) L → List.Chain' (· ≠ ·) L →
      List.Chain' (· < ·) L := by
    intro L
    induction L with
    | nil => intro _ _; exact List.chain'_nil
    | cons a t ih =>
      cases t with
      | nil => intro _ _; simp
      | cons b u =>
        intro h1 h2
        rw [List.chain'_cons] at h1 h2 ⊢
        exact ⟨lt_of_le_of_ne h1.1 h2.1, ih h1.2 h2.2⟩
  have hsort : List.Sorted (· < ·) (uniqueSorted vals) := by
    unfold uniqueSorted
    have hle : List.Sorted (· ≤ ·) ((vals.insertionSort (· ≤ ·)).destutter (· ≠ ·)) :=
      (List.sorted_insertionSort _ vals).sublist (List.destutter_sublist _ _)
    have hch : List.Chain' (· ≠ ·) ((vals.insertionSort (· ≤ ·)).destutter (· ≠ ·)) :=
      List.destutter_is_chain' _ _
    exact List.chain'_iff_pairwise.mp (hcomb _ hle.chain' hch)
  have hne : (uniqueSorted vals).length ≠ 0 := by
    unfold uniqueSorted
    cases heq : vals.insertionSort (· ≤ ·) with
    | nil =>
      have := List.length_insertionSort (· ≤ ·) vals
      rw [heq] at this
      cases vals with
      | nil => exact absurd rfl h
      | cons a l => simp at this
    | cons a l =>
      rw [List.destutter_cons']
      simp [List.destutter'_ne_nil]
  have hdrop : List.Sorted (· < ·) (uniqueSorted vals).dropLast :=
    hsort.sublist (List.dropLast_sublist _)
  unfold postOdd
  split_ifs with hpar
  · refine ⟨?_, hdrop.chain', hdrop.nodup⟩
    rw [List.length_dropLast, Nat.odd_iff]
    omega
  · refine ⟨?_, hsort.chain', hsort.nodup⟩
    rw [Nat.odd_iff]
    omega

/-- C6: for all integer min/max ticks (in particular those the tick math of
`_update_ticks_grid` produces for any positive spot and volatility) and any
point count, the grid `ticksGridFrom` computes — `n_points*2 + 1` evenly
spaced integer ticks, deduplicated and sorted, last tick dropped when the
count came out even — has odd length, strictly increasing values and no
duplicates. -/
theorem ticks_grid_odd_strict (mn mx : ℤ) (n : ℕ) :
    Odd (ticksGridFrom mn mx n).length ∧
    List.Chain' (· < ·) (ticksGridFrom mn mx n) ∧
    (ticksGridFrom mn mx n).Nodup := by
  unfold ticksGridFrom
  refine postOdd_uniqueSorted_spec _ ?_
  unfold linspaceInt
  simp [List.range_eq_nil]

/-- C5 counterexample: with a performance-fee rate of 1 (which is ≥ 0, so the
claim covers it), rebalancing a state whose capital 200 exceeds the open
capital 100 charges a fee of 100 and leaves the post-rebalance capital at
exactly the prior open capital — the fee is nonzero although the
post-rebalance capital does not exceed the prior open capital, refuting the
claim's final conjunct. -/
theorem gridEx_eval : ticksGridFrom 0 2 1 = [0, 1, 2] := by
  norm_num [ticksGridFrom, linspaceInt, uniqueSorted, postOdd, truncQ,
    List.range_succ, List.insertionSort, List.orderedInsert, List.destutter,
    List.destutter']

theorem rebalance_fee_cex :
    (0 : ℚ) ≤ cfgFee1.performance_fees ∧
    (rebalanceK tmEx cfgFee1 kC5ex).2 ≠ 0 ∧
    (rebalanceK tmEx cfgFee1 kC5ex).1.open_capital ≤ kC5ex.open_capital := by
  have hfee : (rebalanceK tmEx cfgFee1 kC5ex).2 = 100 := by
    norm_num [rebalanceK, kC5ex, cfgFee1, cfgEx]
  have hoc : (rebalanceK tmEx cfgFee1 kC5ex).1.open_capital = 100 := by
    norm_num [rebalanceK, kC5ex, cfgFee1, cfgEx]
  refine ⟨by norm_num [cfgFee1, cfgEx], by rw [hfee]; norm_num, ?_⟩
  rw [hoc]
  norm_num [kC5ex]

/-- C5 (amended): for every strategy state and performance-fee rate in
[0, 1), `rebalance` charges `(capital - openCapital) * feeRate` exactly when
the marked capital exceeds the previous rebalance's open capital and zero
otherwise, and on return leaves the open price at the spot, the open capital
at the post-fee capital, the quote at half of it, the base at the quote
converted at the spot, the controller Active, a non-negative fee, and a zero
fee whenever the post-rebalance capital does not exceed the prior open
capital.  (The original claim asserted the last conjunct for every rate
≥ 0; it fails at rate 1, see the counterexample.) -/
theorem rebalance_accounting (tm : TickMath) (cfg : KandelConfig) (k : Kandel)
    (h0 : 0 ≤ cfg.performance_fees) (h1 : cfg.performance_fees < 1) :
    (rebalanceK tm cfg k).2 =
      (if k.quote + k.base * k.spot_price > k.open_capital
       then (k.quote + k.base * k.spot_price - k.open_capital) * cfg.performance_fees
       else 0) ∧
    (rebalanceK tm cfg k).1.open_price = k.spot_price ∧
    (rebalanceK tm cfg k).1.open_capital =
      k.quote + k.base * k.spot_price - (rebalanceK tm cfg k).2 ∧
    (rebalanceK tm cfg k).1.quote = (rebalanceK tm cfg k).1.open_capital / 2 ∧
    (rebalanceK tm cfg k).1.base = (rebalanceK tm cfg k).1.quote / k.spot_price ∧
    (rebalanceK tm cfg k).1.is_active = true ∧
    0 ≤ (rebalanceK tm cfg k).2 ∧
    ((rebalanceK tm cfg k).1.open_capital ≤ k.open_capital →
      (rebalanceK tm cfg k).2 = 0) := by
  dsimp only [rebalanceK]
  refine ⟨rfl, rfl, rfl, rfl, rfl, rfl, ?_, ?_⟩
  · split_ifs with hc
    · exact mul_nonneg (sub_nonneg.mpr (le_of_lt hc)) h0
    · exact le_rfl
  · intro h2
    split_ifs at h2 ⊢ with hc
    · rcases eq_or_lt_of_le h0 with hp | hp
      · rw [← hp, mul_zero]
      · exfalso
        nlinarith [mul_pos (sub_pos.mpr hc) (sub_pos.mpr h1)]
    · rfl

theorem rebalance_accounting_witness :
    (0 : ℚ) ≤ cfgEx.performance_fees ∧
    (rebalanceK tmEx cfgEx kC5ex).1.is_active = true ∧
    0 ≤ (rebalanceK tmEx cfgEx kC5ex).2 := by
  have h := rebalance_accounting tmEx cfgEx kC5ex
    (by norm_num [cfgEx]) (by norm_num [cfgEx])
  exact ⟨by norm_num [cfgEx], h.2.2.2.2.2.1, h.2.2.2.2.2.2.1⟩

/-- The map of recorded per-step transaction lists produced by the state
generator is a list of empty lists: the local `transactions` variable is
initialised to `[]` and never reassigned. -/
theorem genStates_transactions {σ τ : Type} (st : Strat σ τ)
    (ins : List (ℚ × ℚ × ℚ)) :
    ∀ (i : ℕ) (k : σ),
      ((genStates st ins i k).1).map (fun r => r.transactions) =
        List.replicate ins.length ([] : List τ) := by
  induction ins with
  | nil => intro i k; rfl
  | cons t rest ih =>
    intro i k
    obtain ⟨p, wv, ev⟩ := t
    simp only [genStates, List.map_cons, List.length_cons, List.replicate_succ,
      List.cons.injEq]
    exact ⟨by trivial, ih _ _⟩

/-- C4: the transaction history the backtest driver records is a list of
empty lists for every strategy implementation and input series — the
driver's local `transactions` variable is never populated with the fills
`update_kandel_state` executes — and on a concrete one-step run of the
`Kandel` model whose arbitrate step demonstrably fills resting Bids, the
recorded history is still `[[]]`. -/
theorem kEx_eval :
    kEx =
      { spot_price := 2, base := 25, quote := 50, open_price := 2,
        open_capital := 100, vol := 0, ticks_grid := [0, 1, 2],
        order_book :=
          { orders := [{ order_type := OrderType.bid, tick := 0, qty := 50, price := 1 },
                       { order_type := OrderType.ask, tick := 2, qty := 25, price := 3 }],
            current_price := 2, decimals_diff := 0, ticks_grid := [0, 1, 2] },
        is_active := true } := by
  norm_num [kEx, initKandel, tmEx, cfgEx, gridEx_eval, buildBookT, should_exit,
    List.takeWhile]
  intro h
  exact absurd h (by simp)

theorem transactions_recorded_empty :
    (∀ (σ τ : Type) (st : Strat σ τ) (ph : Bool) (ins : List (ℚ × ℚ × ℚ)) (k0 : σ),
        (runDriver st ph ins k0).2.2 = List.replicate ins.length []) ∧
    (runDriver (kandelStrat tmEx cfgEx) false [(1, 0, 0)] kEx).2.2 = [[]] ∧
    (arbitrateT 1 kEx.order_book).1 ≠ [] := by
  refine ⟨?_, ?_, ?_⟩
  · intro σ τ st ph ins k0
    unfold runDriver
    exact genStates_transactions st ins 0 k0
  · have h := genStates_transactions (kandelStrat tmEx cfgEx) [(1, 0, 0)] 0 kEx
    simpa [runDriver] using h
  · rw [kEx_eval]
    norm_num [arbitrateT]
    exact List.cons_ne_nil _ _

/-- C8: two configurations that differ only in the replenishment skip
distance `step_size` produce identical strategy behaviour everywhere: the
same initial state, the same state after every `update_kandel_state` step,
the same rebalances, and identical backtest-driver output on every input
series — `step_size` is read by nothing. -/
theorem step_size_irrelevant (tm : TickMath) (c1 c2 : KandelConfig)
    (h1 : c1.initial_capital = c2.initial_capital)
    (h2 : c1.decimals_diff = c2.decimals_diff)
    (h3 : c1.performance_fees = c2.performance_fees)
    (h4 : c1.vol_mult = c2.vol_mult)
    (h5 : c1.range_mult = c2.range_mult)
    (h6 : c1.n_points = c2.n_points)
    (h7 : c1.window = c2.window)
    (h8 : c1.exit_vol_threshold = c2.exit_vol_threshold)
    (h9 : c1.asymmetric_exit_threshold = c2.asymmetric_exit_threshold) :
    (∀ s v e, initKandel tm c1 s v e = initKandel tm c2 s v e) ∧
    (∀ k s w e, update_kandel_state tm c1 k s w e = update_kandel_state tm c2 k s w e) ∧
    (∀ k, rebalanceK tm c1 k = rebalanceK tm c2 k) ∧
    (∀ ph ins k0, runDriver (kandelStrat tm c1) ph ins k0 =
                  runDriver (kandelStrat tm c2) ph ins k0) := by
  rcases c1 with ⟨a1, a2, a3, a4, a5, a6, s1, a7, a8, a9⟩
  rcases c2 with ⟨b1, b2, b3, b4, b5, b6, s2, b7, b8, b9⟩
  dsimp only at h1 h2 h3 h4 h5 h6 h7 h8 h9
  subst h1; subst h2; subst h3; subst h4; subst h5; subst h6
  subst h7; subst h8; subst h9
  have hst : kandelStrat tm ⟨a1, a2, a3, a4, a5, a6, s1, a7, a8, a9⟩ =
      kandelStrat tm ⟨a1, a2, a3, a4, a5, a6, s2, a7, a8, a9⟩ := rfl
  exact ⟨fun s v e => rfl, fun k s w e => rfl, fun k => rfl,
         fun ph ins k0 => by rw [hst]⟩

theorem step_size_irrelevant_witness :
    cfgEx.step_size ≠ cfgEx'.step_size ∧
    update_kandel_state tmEx cfgEx kEx 1 0 0 =
      update_kandel_state tmEx cfgEx' kEx 1 0 0 :=
  ⟨by decide,
   (step_size_irrelevant tmEx cfgEx cfgEx'
      rfl rfl rfl rfl rfl rfl rfl rfl rfl).2.1 kEx 1 0 0⟩

theorem pyIndex_get (l : List ℚ) (p : ℚ) :
    ∀ i, pyIndex l p = some i → l.get? i = some p := by
  induction l with
  | nil => intro i h; simp [pyIndex] at h
  | cons x xs ih =>
    intro i h
    simp only [pyIndex] at h
    split_ifs at h with hx
    · injection h with h
      subst h
      simp [List.get?, hx]
    · cases hrec : pyIndex xs p with
      | none => rw [hrec] at h; simp at h
      | some j =>
        rw [hrec] at h
        simp only [Option.map_some'] at h
        injection h with h
        subst h
        simpa [List.get?] using ih j hrec

theorem pyGet_nat (l : List α) (n : ℕ) : pyGet l (n : ℤ) = l.get? n := by
  unfold pyGet
  rw [if_pos (Int.natCast_nonneg n)]
  simp

theorem pdLoop_bid_spec (grid : List ℚ) :
    ∀ (ts os : List Order) (qch bch : ℚ),
      (∀ t ∈ ts, ∃ i, pyIndex grid t.price = some i ∧ i + 1 < grid.length) →
      pdLoop OrderType.bid grid ts os qch bch =
        (ts.foldlM (fun os' t => addOrderL
            { order_type := OrderType.ask, qty := t.qty,
              price := gridNextPrice grid t.price } os') os).map
          (fun os' => (os', qch - (ts.map (fun t => t.price * t.qty)).sum,
                       bch + (ts.map (fun t => t.qty)).sum)) := by
  intro ts
  induction ts with
  | nil =>
    intro os qch bch _
    simp [pdLoop]
  | cons t ts ih =>
    intro os qch bch h
    obtain ⟨i, hi, hlt⟩ := h t (List.mem_cons_self _ _)
    have hcast : (i : ℤ) + 1 = ((i + 1 : ℕ) : ℤ) := by push_cast; ring
    have hget : pyGet grid ((i : ℤ) + 1) = some (gridNextPrice grid t.price) := by
      rw [hcast, pyGet_nat]
      unfold gridNextPrice
      rw [hi]
      simp [List.getD_eq_getElem?_getD, List.get?_eq_getElem?,
        List.getElem?_eq_getElem hlt]
    cases hao : addOrderL
        { order_type := OrderType.ask, qty := t.qty,
          price := gridNextPrice grid t.price } os with
    | none =>
      simp [pdLoop, hi, hget, hao, List.foldlM_cons]
    | some os' =>
      simp only [pdLoop, hi, hget, hao, List.foldlM_cons, Option.bind_eq_bind,
        Option.some_bind]
      rw [ih os' _ _ (fun u hu => h u (List.mem_cons_of_mem _ hu))]
      congr 1
      funext os''
      simp only [Prod.mk.injEq, List.map_cons, List.sum_cons]
      refine ⟨by trivial, by ring, by ring⟩

theorem pdLoop_ask_spec (grid : List ℚ) :
    ∀ (ts os : List Order) (qch bch : ℚ),
      (∀ t ∈ ts, ∃ i, pyIndex grid t.price = some i ∧ 1 ≤ i) →
      pdLoop OrderType.ask grid ts os qch bch =
        (ts.foldlM (fun os' t => addOrderL
            { order_type := OrderType.bid,
              qty := t.qty * t.price / gridPrevPrice grid t.price,
              price := gridPrevPrice grid t.price } os') os).map
          (fun os' => (os', qch + (ts.map (fun t => t.price * t.qty)).sum,
                       bch - (ts.map (fun t => t.qty)).sum)) := by
  intro ts
  induction ts with
  | nil =>
    intro os qch bch _
    simp [pdLoop]
  | cons t ts ih =>
    intro os qch bch h
    obtain ⟨i, hi, h1i⟩ := h t (List.mem_cons_self _ _)
    have hilen : i < grid.length := by
      have hg := pyIndex_get grid t.price i hi
      exact (List.get?_eq_some.mp hg).1
    have hcast : (i : ℤ) - 1 = ((i - 1 : ℕ) : ℤ) := by omega
    have hget : pyGet grid ((i : ℤ) - 1) = some (gridPrevPrice grid t.price) := by
      rw [hcast, pyGet_nat]
      unfold gridPrevPrice
      rw [hi]
      have hlt : i - 1 < grid.length := by omega
      simp [List.getD_eq_getElem?_getD, List.get?_eq_getElem?,
        List.getElem?_eq_getElem hlt]
    cases hao : addOrderL
        { order_type := OrderType.bid,
          qty := t.qty * t.price / gridPrevPrice grid t.price,
          price := gridPrevPrice grid t.price } os with
    | none =>
      simp [pdLoop, hi, hget, hao, List.foldlM_cons]
    | some os' =>
      simp only [pdLoop, hi, hget, hao, List.foldlM_cons, Option.bind_eq_bind,
        Option.some_bind]
      rw [ih os' _ _ (fun u hu => h u (List.mem_cons_of_mem _ hu))]
      congr 1
      funext os''
      simp only [Prod.mk.injEq, List.map_cons, List.sum_cons]
      refine ⟨by trivial, by ring, by ring⟩

/-- C2: for a nonempty batch of same-side fills whose prices all occur in the
active grid at non-boundary indices, `place_dual_offers` equals its
specification: each filled Bid at grid index `i` adds (through `add_order`)
an Ask at grid index `i+1` with the same base quantity and each filled Ask at
index `i` a Bid at index `i-1` with quantity `qty * price / newPrice`, and
the returned inventory deltas are the signed sums over the batch (negative
quote and positive base for Bid fills, positive quote and negative base for
Ask fills). -/
theorem place_dual_offers_replenishment (ts : List Order) (b : OrderBook) :
    (ts ≠ [] → (∀ t ∈ ts, t.order_type = OrderType.bid) →
      (∀ t ∈ ts, ∃ i, pyIndex b.price_grid t.price = some i ∧
        i + 1 < b.price_grid.length) →
      place_dual_offers ts b = pdSpecBid ts b) ∧
    (ts ≠ [] → (∀ t ∈ ts, t.order_type = OrderType.ask) →
      (∀ t ∈ ts, ∃ i, pyIndex b.price_grid t.price = some i ∧ 1 ≤ i) →
      place_dual_offers ts b = pdSpecAsk ts b) := by
  constructor
  · intro hne hside hidx
    cases ts with
    | nil => exact absurd rfl hne
    | cons t ts' =>
      have ht : t.order_type = OrderType.bid := hside t (List.mem_cons_self _ _)
      simp only [place_dual_offers, pdSpecBid]
      rw [ht, pdLoop_bid_spec b.price_grid (t :: ts') b.orders 0 0 hidx,
        Option.map_map]
      congr 1
      funext os'
      simp [zero_sub, zero_add]
  · intro hne hside hidx
    cases ts with
    | nil => exact absurd rfl hne
    | cons t ts' =>
      have ht : t.order_type = OrderType.ask := hside t (List.mem_cons_self _ _)
      simp only [place_dual_offers, pdSpecAsk]
      rw [ht, pdLoop_ask_spec b.price_grid (t :: ts') b.orders 0 0 hidx,
        Option.map_map]
      congr 1
      funext os'
      simp [zero_add, zero_sub]

theorem place_dual_offers_replenishment_witness :
    place_dual_offers [{ order_type := OrderType.bid, qty := 2, price := 2 }]
      { orders := [{ order_type := OrderType.bid, qty := 1, price := 1 }],
        current_price := 4, price_grid := [1, 2, 3] } =
      pdSpecBid [{ order_type := OrderType.bid, qty := 2, price := 2 }]
        { orders := [{ order_type := OrderType.bid, qty := 1, price := 1 }],
          current_price := 4, price_grid := [1, 2, 3] } ∧
    place_dual_offers [{ order_type := OrderType.ask, qty := 2, price := 3 }]
      { orders := [{ order_type := OrderType.ask, qty := 1, price := 5 }],
        current_price := 4, price_grid := [1, 2, 3] } =
      pdSpecAsk [{ order_type := OrderType.ask, qty := 2, price := 3 }]
        { orders := [{ order_type := OrderType.ask, qty := 1, price := 5 }],
          current_price := 4, price_grid := [1, 2, 3] } := by
  constructor
  · refine (place_dual_offers_replenishment _ _).1 (by simp)
      (by intro t ht; rw [List.mem_singleton] at ht; subst ht; rfl) ?_
    intro t ht
    rw [List.mem_singleton] at ht
    subst ht
    exact ⟨1, by norm_num [pyIndex], by norm_num⟩
  · refine (place_dual_offers_replenishment _ _).2 (by simp)
      (by intro t ht; rw [List.mem_singleton] at ht; subst ht; rfl) ?_
    intro t ht
    rw [List.mem_singleton] at ht
    subst ht
    exact ⟨2, by norm_num [pyIndex], by norm_num⟩

theorem addLoop_sorted_spec (o : Order) :
    ∀ (xs : List Order) (x : Order),
      List.Pairwise (fun a b : Order => a.price ≤ b.price) (x :: xs) →
      x.price ≤ o.price →
      ∃ r, addLoop o (x :: xs) = some r ∧
        ((∃ l1 m l2, x :: xs = l1 ++ m :: l2 ∧ m.price = o.price ∧
            m.order_type = o.order_type ∧
            r = l1 ++ { m with qty := m.qty + o.qty } :: l2) ∨
         (∃ l1 l2, x :: xs = l1 ++ l2 ∧ r = l1 ++ o :: l2 ∧
            (∀ u ∈ l1, u.price ≤ o.price) ∧ (∀ v ∈ l2, o.price ≤ v.price))) := by
  intro xs
  induction xs with
  | nil =>
    intro x hp hx
    by_cases h1 : o.price = x.price ∧ o.order_type = x.order_type
    · have heq : addLoop o [x] = some [{ x with qty := x.qty + o.qty }] := by
        simp [addLoop, h1.1, h1.2]
      exact ⟨_, heq, Or.inl ⟨[], x, [], by simp, h1.1.symm, h1.2.symm, by simp⟩⟩
    · by_cases h2 : o.price = x.price
      · have hty : ¬o.order_type = x.order_type := fun e => h1 ⟨h2, e⟩
        have heq : addLoop o [x] = some [o, x] := by
          simp [addLoop, h2, hty]
        refine ⟨_, heq, Or.inr ⟨[], [x], by simp, by simp, by simp, ?_⟩⟩
        intro v hv
        rw [List.mem_singleton] at hv
        subst hv
        exact le_of_eq h2
      · have hlt : x.price < o.price :=
          lt_of_le_of_ne hx (fun e => h2 e.symm)
        have heq : addLoop o [x] = some [x, o] := by
          simp [addLoop, h2, hlt]
        refine ⟨_, heq, Or.inr ⟨[x], [], by simp, by simp, ?_, by simp⟩⟩
        intro u hu
        rw [List.mem_singleton] at hu
        subst hu
        exact le_of_lt hlt
  | cons y ys ih =>
    intro x hp hx
    by_cases h1 : o.price = x.price ∧ o.order_type = x.order_type
    · have heq : addLoop o (x :: y :: ys) =
          some ({ x with qty := x.qty + o.qty } :: y :: ys) := by
        simp [addLoop, h1.1, h1.2]
      exact ⟨_, heq,
        Or.inl ⟨[], x, y :: ys, by simp, h1.1.symm, h1.2.symm, by simp⟩⟩
    · by_cases h2 : o.price = x.price
      · have hty : ¬o.order_type = x.order_type := fun e => h1 ⟨h2, e⟩
        have heq : addLoop o (x :: y :: ys) = some (o :: x :: y :: ys) := by
          simp [addLoop, h2, hty]
        refine ⟨_, heq, Or.inr ⟨[], x :: y :: ys, by simp, by simp, by simp, ?_⟩⟩
        intro v hv
        rcases List.mem_cons.mp hv with hv | hv
        · subst hv; exact le_of_eq h2
        · exact h2.le.trans (List.rel_of_pairwise_cons hp hv)
      · have hlt : x.price < o.price :=
          lt_of_le_of_ne hx (fun e => h2 e.symm)
        by_cases h4 : o.price < y.price
        · have heq : addLoop o (x :: y :: ys) = some (x :: o :: y :: ys) := by
            simp [addLoop, h2, hlt, h4]
          refine ⟨_, heq, Or.inr ⟨[x], y :: ys, by simp, by simp, ?_, ?_⟩⟩
          · intro u hu
            rw [List.mem_singleton] at hu
            subst hu
            exact le_of_lt hlt
          · intro v hv
            rcases List.mem_cons.mp hv with hv | hv
            · subst hv; exact le_of_lt h4
            · exact (le_of_lt h4).trans
                (List.rel_of_pairwise_cons hp.of_cons hv)
        · have hy : y.price ≤ o.price := not_lt.mp h4
          obtain ⟨r', hr', hc'⟩ := ih y hp.of_cons hy
          have heq : addLoop o (x :: y :: ys) = some (x :: r') := by
            simp [addLoop, h2, hlt, h4, hr']
          refine ⟨x :: r', heq, ?_⟩
          rcases hc' with ⟨l1, m, l2, heq', hm1, hm2, hreq⟩ |
            ⟨l1, l2, heq', hreq, hub, hlb⟩
          · refine Or.inl ⟨x :: l1, m, l2, ?_, hm1, hm2, ?_⟩
            · rw [List.cons_append, ← heq']
            · rw [List.cons_append, ← hreq]
          · refine Or.inr ⟨x :: l1, l2, ?_, ?_, ?_, hlb⟩
            · rw [List.cons_append, ← heq']
            · rw [List.cons_append, ← hreq]
            · intro u hu
              rcases List.mem_cons.mp hu with hu | hu
              · subst hu; exact le_of_lt hlt
              · exact hub u hu

/-- C10: `add_order` is total only on a non-empty ladder.  On the empty
ladder it fails (the unguarded read of `orders[0]` raises before any
emptiness check); on every non-empty ladder sorted by price it succeeds,
having either merged the quantity into an existing order of the same price
and side or inserted the new order at a position respecting the price
order. -/
theorem add_order_empty_vs_sorted :
    (∀ (o : Order) (cp : ℚ) (pg : List ℚ),
        add_order o { orders := [], current_price := cp, price_grid := pg } = none) ∧
    (∀ (o : Order) (b : OrderBook), b.orders ≠ [] →
        List.Pairwise (fun a c : Order => a.price ≤ c.price) b.orders →
        ∃ b', add_order o b = some b' ∧
          ((∃ l1 m l2, b.orders = l1 ++ m :: l2 ∧ m.price = o.price ∧
              m.order_type = o.order_type ∧
              b'.orders = l1 ++ { m with qty := m.qty + o.qty } :: l2) ∨
           (∃ l1 l2, b.orders = l1 ++ l2 ∧ b'.orders = l1 ++ o :: l2 ∧
              (∀ u ∈ l1, u.price ≤ o.price) ∧
              (∀ v ∈ l2, o.price ≤ v.price)))) := by
  constructor
  · intro o cp pg
    rfl
  · intro o b hne hp
    cases hb : b.orders with
    | nil => exact absurd hb hne
    | cons x xs =>
      rw [hb] at hp
      by_cases hfront : o.price < x.price
      · refine ⟨{ b with orders := o :: x :: xs }, ?_, Or.inr ?_⟩
        · simp only [add_order, addOrderL, hb, if_pos hfront,
            Option.map_some']
        · refine ⟨[], x :: xs, by simp [hb], by simp, by simp, ?_⟩
          intro v hv
          rcases List.mem_cons.mp hv with hv | hv
          · subst hv; exact le_of_lt hfront
          · exact (le_of_lt hfront).trans (List.rel_of_pairwise_cons hp hv)
      · have hx : x.price ≤ o.price := not_lt.mp hfront
        obtain ⟨r, hr, hc⟩ := addLoop_sorted_spec o xs x hp hx
        refine ⟨{ b with orders := r }, ?_, ?_⟩
        · simp only [add_order, addOrderL, hb, if_neg hfront, hr,
            Option.getD_some, Option.map_some']
        · rcases hc with ⟨l1, m, l2, heq, hm1, hm2, hreq⟩ |
            ⟨l1, l2, heq, hreq, hub, hlb⟩
          · exact Or.inl ⟨l1, m, l2, heq, hm1, hm2, by exact hreq⟩
          · exact Or.inr ⟨l1, l2, heq, by exact hreq, hub, hlb⟩

theorem add_order_empty_vs_sorted_witness :
    add_order { order_type := OrderType.bid, qty := 1, price := 2 }
      { orders := [], current_price := 5, price_grid := [] } = none ∧
    (∃ b', add_order { order_type := OrderType.bid, qty := 1, price := 2 }
        { orders := [{ order_type := OrderType.bid, qty := 1, price := 1 },
                     { order_type := OrderType.ask, qty := 1, price := 3 }],
          current_price := 5, price_grid := [] } = some b' ∧
      ((∃ l1 m l2,
          (OrderBook.mk [{ order_type := OrderType.bid, qty := 1, price := 1 },
                         { order_type := OrderType.ask, qty := 1, price := 3 }]
            5 []).orders = l1 ++ m :: l2 ∧
          m.price = (2 : ℚ) ∧ m.order_type = OrderType.bid ∧
          b'.orders = l1 ++ { m with qty := m.qty + 1 } :: l2) ∨
       (∃ l1 l2,
          (OrderBook.mk [{ order_type := OrderType.bid, qty := 1, price := 1 },
                         { order_type := OrderType.ask, qty := 1, price := 3 }]
            5 []).orders = l1 ++ l2 ∧
          b'.orders = l1 ++
            { order_type := OrderType.bid, qty := 1, price := 2 } :: l2 ∧
          (∀ u ∈ l1, u.price ≤ (2 : ℚ)) ∧ (∀ v ∈ l2, (2 : ℚ) ≤ v.price)))) := by
  constructor
  · exact add_order_empty_vs_sorted.1 _ 5 []
  · exact add_order_empty_vs_sorted.2
      { order_type := OrderType.bid, qty := 1, price := 2 }
      { orders := [{ order_type := OrderType.bid, qty := 1, price := 1 },
                   { order_type := OrderType.ask, qty := 1, price := 3 }],
        current_price := 5, price_grid := [] }
      (by simp) (by norm_num [List.pairwise_cons])

theorem arbitrate_sub (spot : ℚ) (b : OrderBook) :
    ∀ x ∈ (arbitrate spot b).2.orders, x ∈ b.orders := by
  intro x hx
  unfold arbitrate at hx
  split_ifs at hx <;> first
    | exact (List.mem_filter.mp hx).1
    | exact hx

theorem head?_get0 (l : List ℚ) (g0 : ℚ) (h : g0 ∈ l.head?) :
    l.get? 0 = some g0 := by
  cases l with
  | nil => simp at h
  | cons a t =>
    simp only [List.head?] at h
    rw [Option.mem_def] at h
    injection h with h
    subst h
    rfl

theorem pairwise_lt_get (grid : List ℚ) (hg : List.Pairwise (· < ·) grid) :
    ∀ (i j : ℕ) (a b : ℚ), grid.get? i = some a → grid.get? j = some b →
      i < j → a < b := by
  intro i j a b ha hb hij
  rw [List.get?_eq_getElem?] at ha hb
  obtain ⟨hi, ha'⟩ := List.getElem?_eq_some_iff.mp ha
  obtain ⟨hj, hb'⟩ := List.getElem?_eq_some_iff.mp hb
  have := List.pairwise_iff_getElem.mp hg i j hi hj hij
  rwa [ha', hb'] at this

theorem addLoop_mem (P : OrderType → ℚ → Prop) (o : Order) :
    ∀ (l r : List Order), addLoop o l = some r →
      (∀ x ∈ l, P x.order_type x.price) → P o.order_type o.price →
      ∀ x ∈ r, P x.order_type x.price := by
  intro l
  induction l with
  | nil => intro r h; exact Option.noConfusion h
  | cons a t ih =>
    intro r h hl hP x hx
    unfold addLoop at h
    split_ifs at h with h1 h2 h3
    · injection h with h
      subst h
      rcases List.mem_cons.mp hx with hx | hx
      · rw [hx]
        exact hl a (List.mem_cons_self _ _)
      · exact hl x (List.mem_cons_of_mem _ hx)
    · injection h with h
      subst h
      rcases List.mem_cons.mp hx with hx | hx
      · rw [hx]; exact hP
      · exact hl x hx
    · injection h with h
      subst h
      rcases List.mem_cons.mp hx with hx | hx
      · rw [hx]; exact hl a (List.mem_cons_self _ _)
      · rw [List.mem_singleton] at hx
        rw [hx]
        exact hP
    · cases t with
      | nil => simp at h
      | cons y ys =>
        dsimp only at h
        split_ifs at h with h4
        · injection h with h
          subst h
          rcases List.mem_cons.mp hx with hx | hx
          · rw [hx]; exact hl a (List.mem_cons_self _ _)
          · rcases List.mem_cons.mp hx with hx | hx
            · rw [hx]; exact hP
            · exact hl x (List.mem_cons_of_mem _ hx)
        · cases hrec : addLoop o (y :: ys) with
          | none => rw [hrec] at h; simp at h
          | some r' =>
            rw [hrec] at h
            simp only [Option.map_some'] at h
            injection h with h
            subst h
            rcases List.mem_cons.mp hx with hx | hx
            · rw [hx]; exact hl a (List.mem_cons_self _ _)
            · exact ih r' hrec (fun u hu => hl u (List.mem_cons_of_mem _ hu))
                hP x hx

theorem addOrderL_mem (P : OrderType → ℚ → Prop) (o : Order)
    (l r : List Order) (h : addOrderL o l = some r)
    (hl : ∀ x ∈ l, P x.order_type x.price) (hP : P o.order_type o.price) :
    ∀ x ∈ r, P x.order_type x.price := by
  cases l with
  | nil => simp [addOrderL] at h
  | cons a t =>
    simp only [addOrderL] at h
    split_ifs at h with hfront
    · injection h with h
      subst h
      intro x hx
      rcases List.mem_cons.mp hx with hx | hx
      · subst hx; exact hP
      · exact hl x hx
    · injection h with h
      subst h
      cases hrec : addLoop o (a :: t) with
      | none =>
        simpa using hl
      | some r' =>
        simpa using addLoop_mem P o (a :: t) r' hrec hl hP

theorem pdLoop_mem (P : OrderType → ℚ → Prop) (side : OrderType)
    (grid : List ℚ) :
    ∀ (ts os : List Order) (qch bch : ℚ) (res : List Order × ℚ × ℚ),
      pdLoop side grid ts os qch bch = some res →
      (∀ x ∈ os, P x.order_type x.price) →
      (∀ t ∈ ts, ∀ i, pyIndex grid t.price = some i →
        (side = OrderType.bid →
          ∀ p ∈ pyGet grid ((i : ℤ) + 1), P OrderType.ask p) ∧
        (side = OrderType.ask →
          ∀ p ∈ pyGet grid ((i : ℤ) - 1), P OrderType.bid p)) →
      ∀ x ∈ res.1, P x.order_type x.price := by
  intro ts
  induction ts with
  | nil =>
    intro os qch bch res h hos _
    simp only [pdLoop] at h
    injection h with h
    subst h
    exact hos
  | cons t ts ih =>
    intro os qch bch res h hos hduty
    cases side with
    | bid =>
      simp only [pdLoop, Option.bind_eq_bind] at h
      cases hpi : pyIndex grid t.price with
      | none => rw [hpi] at h; simp at h
      | some i =>
        rw [hpi] at h
        simp only [Option.some_bind] at h
        cases hpg : pyGet grid ((i : ℤ) + 1) with
        | none => rw [hpg] at h; simp at h
        | some p =>
          rw [hpg] at h
          simp only [Option.some_bind] at h
          cases hao : addOrderL
              { order_type := OrderType.ask, qty := t.qty, price := p } os with
          | none => rw [hao] at h; simp at h
          | some os' =>
            rw [hao] at h
            simp only [Option.some_bind] at h
            have hp : P OrderType.ask p :=
              (hduty t (List.mem_cons_self _ _) i hpi).1 rfl p
                (by rw [hpg]; rfl)
            exact ih os' _ _ res h
              (addOrderL_mem P _ os os' hao hos hp)
              (fun u hu => hduty u (List.mem_cons_of_mem _ hu))
    | ask =>
      simp only [pdLoop, Option.bind_eq_bind] at h
      cases hpi : pyIndex grid t.price with
      | none => rw [hpi] at h; simp at h
      | some i =>
        rw [hpi] at h
        simp only [Option.some_bind] at h
        cases hpg : pyGet grid ((i : ℤ) - 1) with
        | none => rw [hpg] at h; simp at h
        | some p =>
          rw [hpg] at h
          simp only [Option.some_bind] at h
          cases hao : addOrderL
              { order_type := OrderType.bid,
                qty := t.qty * t.price / p, price := p } os with
          | none => rw [hao] at h; simp at h
          | some os' =>
            rw [hao] at h
            simp only [Option.some_bind] at h
            have hp : P OrderType.bid p :=
              (hduty t (List.mem_cons_self _ _) i hpi).2 rfl p
                (by rw [hpg]; rfl)
            exact ih os' _ _ res h
              (addOrderL_mem P _ os os' hao hos hp)
              (fun u hu => hduty u (List.mem_cons_of_mem _ hu))

theorem arbitrate_down_eq (spot : ℚ) (b : OrderBook) (h : spot < b.current_price) :
    (arbitrate spot b).1 =
      b.orders.filter
        (fun o => decide (o.order_type = OrderType.bid ∧ spot ≤ o.price)) ∧
    (arbitrate spot b).2.orders =
      b.orders.filter
        (fun o => decide ((o.order_type = OrderType.bid ∧ spot > o.price) ∨
                           o.order_type = OrderType.ask)) := by
  unfold arbitrate
  rw [if_pos h]
  exact ⟨rfl, rfl⟩

theorem arbitrate_up_eq (spot : ℚ) (b : OrderBook) (h : b.current_price < spot) :
    (arbitrate spot b).1 =
      b.orders.filter
        (fun o => decide (o.order_type = OrderType.ask ∧ spot ≥ o.price)) ∧
    (arbitrate spot b).2.orders =
      b.orders.filter
        (fun o => decide ((o.order_type = OrderType.ask ∧ spot < o.price) ∨
                           o.order_type = OrderType.bid)) := by
  unfold arbitrate
  rw [if_neg (not_lt.mpr h.le), if_pos h]
  exact ⟨rfl, rfl⟩

theorem get0_head? (l : List ℚ) (v : ℚ) (h : l.get? 0 = some v) :
    v ∈ l.head? := by
  cases l with
  | nil => simp at h
  | cons a t =>
    simp only [List.get?] at h
    injection h with h
    subst h
    rfl

theorem cycle_inv (grid : List ℚ) (hg : List.Pairwise (· < ·) grid)
    (spot : ℚ) (b b' : OrderBook)
    (hgr : b.price_grid = grid)
    (hnc : NoCross b.orders) (haf : AskFloor grid b.orders)
    (hcy : cycle spot b = some b') :
    b'.price_grid = grid ∧ NoCross b'.orders ∧ AskFloor grid b'.orders := by
  unfold cycle at hcy
  by_cases hts : (arbitrate spot b).1 = []
  · rw [if_pos hts] at hcy
    injection hcy with hcy
    subst hcy
    refine ⟨(arbitrate_grid spot b).trans hgr, ?_, ?_⟩
    · intro x hx y hy hxb hyb
      exact hnc x (arbitrate_sub spot b x hx) y (arbitrate_sub spot b y hy) hxb hyb
    · intro o ho hot g0 hg0
      exact haf o (arbitrate_sub spot b o ho) hot g0 hg0
  · rw [if_neg hts] at hcy
    cases hpd : place_dual_offers (arbitrate spot b).1 (arbitrate spot b).2 with
    | none => rw [hpd] at hcy; simp at hcy
    | some pr =>
      rw [hpd] at hcy
      simp only [Option.map_some'] at hcy
      injection hcy with hcy
      subst hcy
      have hb1g : (arbitrate spot b).2.price_grid = grid :=
        (arbitrate_grid spot b).trans hgr
      rcases lt_trichotomy spot b.current_price with hlt | hmid | hgt
      · -- price fell: the batch is Bids at/above spot, survivors Bids below
        -- spot plus Asks; replenishment adds Asks strictly above spot.
        obtain ⟨hts_eq, hb1⟩ := arbitrate_down_eq spot b hlt
        cases hts2 : (arbitrate spot b).1 with
        | nil => exact absurd hts2 hts
        | cons t0 ts' =>
          have ht0 : t0.order_type = OrderType.bid := by
            have : t0 ∈ (arbitrate spot b).1 := by
              rw [hts2]; exact List.mem_cons_self _ _
            rw [hts_eq] at this
            exact (of_decide_eq_true (List.mem_filter.mp this).2).1
          rw [hts2] at hpd
          simp only [place_dual_offers] at hpd
          rw [ht0, hb1g] at hpd
          cases hloop : pdLoop OrderType.bid grid (t0 :: ts')
              (arbitrate spot b).2.orders 0 0 with
          | none => rw [hloop] at hpd; simp at hpd
          | some res =>
            rw [hloop] at hpd
            simp only [Option.map_some'] at hpd
            injection hpd with hpd
            subst hpd
            have hall : ∀ x ∈ res.1,
                (fun (s : OrderType) (pc : ℚ) =>
                  (s = OrderType.bid → pc < spot ∧
                    ∃ w ∈ b.orders, w.order_type = OrderType.bid ∧ w.price = pc) ∧
                  (s = OrderType.ask →
                    (∃ z ∈ b.orders, z.order_type = OrderType.ask ∧ z.price = pc) ∨
                    (spot < pc ∧ ∀ g0 ∈ grid.head?, g0 < pc)))
                  x.order_type x.price := by
              refine pdLoop_mem
                (fun (s : OrderType) (pc : ℚ) =>
                  (s = OrderType.bid → pc < spot ∧
                    ∃ w ∈ b.orders, w.order_type = OrderType.bid ∧ w.price = pc) ∧
                  (s = OrderType.ask →
                    (∃ z ∈ b.orders, z.order_type = OrderType.ask ∧ z.price = pc) ∨
                    (spot < pc ∧ ∀ g0 ∈ grid.head?, g0 < pc)))
                OrderType.bid grid ((arbitrate spot b).1)
                (arbitrate spot b).2.orders 0 0 res (by rw [← hts2] at hloop; exact hloop) ?_ ?_
              · intro x hx
                rw [hb1] at hx
                obtain ⟨hxm, hxp⟩ := List.mem_filter.mp hx
                have hxp' := of_decide_eq_true hxp
                constructor
                · intro hxb
                  rcases hxp' with ⟨_, hpl⟩ | hask
                  · exact ⟨hpl, x, hxm, hxb, rfl⟩
                  · rw [hxb] at hask
                    exact OrderType.noConfusion hask
                · intro hxa
                  exact Or.inl ⟨x, hxm, hxa, rfl⟩
              · intro t ht i hpi
                constructor
                · intro _ p hp
                  have hget : grid.get? (i + 1) = some p := by
                    have hp' : pyGet grid ((i : ℤ) + 1) = some p :=
                      Option.mem_def.mp hp
                    rwa [show ((i : ℤ) + 1) = ((i + 1 : ℕ) : ℤ) by push_cast; ring,
                      pyGet_nat] at hp'
                  have hgi : grid.get? i = some t.price :=
                    pyIndex_get grid t.price i hpi
                  have htp_lt : t.price < p :=
                    pairwise_lt_get grid hg i (i + 1) _ _ hgi hget (by omega)
                  have ht' : t ∈ b.orders ∧
                      (t.order_type = OrderType.bid ∧ spot ≤ t.price) := by
                    rw [hts_eq] at ht
                    have hm := List.mem_filter.mp ht
                    exact ⟨hm.1, of_decide_eq_true hm.2⟩
                  refine ⟨fun he => OrderType.noConfusion he, fun _ => Or.inr ?_⟩
                  refine ⟨lt_of_le_of_lt ht'.2.2 htp_lt, ?_⟩
                  intro g0 hg0
                  exact pairwise_lt_get grid hg 0 (i + 1) g0 p
                    (head?_get0 grid g0 hg0) hget (by omega)
                · intro he
                  exact absurd he (by simp)
            refine ⟨rfl, ?_, ?_⟩
            · intro x hx y hy hxb hyb
              obtain ⟨hxlt, w, hw, hwb, hwp⟩ := (hall x hx).1 hxb
              rcases (hall y hy).2 hyb with ⟨z, hz, hza, hzp⟩ | ⟨hyp, _⟩
              · rw [← hwp, ← hzp]
                exact hnc w hw z hz hwb hza
              · exact lt_trans hxlt hyp
            · intro o ho hoa g0 hg0
              rcases (hall o ho).2 hoa with ⟨z, hz, hza, hzp⟩ | ⟨_, hfl⟩
              · rw [← hzp]
                exact haf z hz hza g0 hg0
              · exact hfl g0 hg0
      · exact absurd (arbitrate_at_current spot b hmid.symm) hts
      · -- price rose: the batch is Asks at/below spot, survivors Asks above
        -- spot plus Bids; replenishment adds Bids strictly below spot.
        obtain ⟨hts_eq, hb1⟩ := arbitrate_up_eq spot b hgt
        cases hts2 : (arbitrate spot b).1 with
        | nil => exact absurd hts2 hts
        | cons t0 ts' =>
          have ht0 : t0.order_type = OrderType.ask := by
            have : t0 ∈ (arbitrate spot b).1 := by
              rw [hts2]; exact List.mem_cons_self _ _
            rw [hts_eq] at this
            exact (of_decide_eq_true (List.mem_filter.mp this).2).1
          rw [hts2] at hpd
          simp only [place_dual_offers] at hpd
          rw [ht0, hb1g] at hpd
          cases hloop : pdLoop OrderType.ask grid (t0 :: ts')
              (arbitrate spot b).2.orders 0 0 with
          | none => rw [hloop] at hpd; simp at hpd
          | some res =>
            rw [hloop] at hpd
            simp only [Option.map_some'] at hpd
            injection hpd with hpd
            subst hpd
            have hall : ∀ x ∈ res.1,
                (fun (s : OrderType) (pc : ℚ) =>
                  (s = OrderType.ask → spot < pc ∧
                    ∃ z ∈ b.orders, z.order_type = OrderType.ask ∧ z.price = pc) ∧
                  (s = OrderType.bid →
                    (∃ w ∈ b.orders, w.order_type = OrderType.bid ∧ w.price = pc) ∨
                    pc < spot))
                  x.order_type x.price := by
              refine pdLoop_mem
                (fun (s : OrderType) (pc : ℚ) =>
                  (s = OrderType.ask → spot < pc ∧
                    ∃ z ∈ b.orders, z.order_type = OrderType.ask ∧ z.price = pc) ∧
                  (s = OrderType.bid →
                    (∃ w ∈ b.orders, w.order_type = OrderType.bid ∧ w.price = pc) ∨
                    pc < spot))
                OrderType.ask grid ((arbitrate spot b).1)
                (arbitrate spot b).2.orders 0 0 res (by rw [← hts2] at hloop; exact hloop) ?_ ?_
              · intro x hx
                rw [hb1] at hx
                obtain ⟨hxm, hxp⟩ := List.mem_filter.mp hx
                have hxp' := of_decide_eq_true hxp
                constructor
                · intro hxa
                  rcases hxp' with ⟨_, hpg⟩ | hbid
                  · exact ⟨hpg, x, hxm, hxa, rfl⟩
                  · rw [hxa] at hbid
                    exact OrderType.noConfusion hbid
                · intro hxb
                  exact Or.inl ⟨x, hxm, hxb, rfl⟩
              · intro t ht i hpi
                have ht' : t ∈ b.orders ∧
                    (t.order_type = OrderType.ask ∧ spot ≥ t.price) := by
                  rw [hts_eq] at ht
                  have hm := List.mem_filter.mp ht
                  exact ⟨hm.1, of_decide_eq_true hm.2⟩
                have hgi : grid.get? i = some t.price :=
                  pyIndex_get grid t.price i hpi
                have h1i : 1 ≤ i := by
                  by_contra hno
                  have hi0 : i = 0 := by omega
                  rw [hi0] at hgi
                  have hhd : t.price ∈ grid.head? := get0_head? grid t.price hgi
                  exact lt_irrefl t.price (haf t ht'.1 ht'.2.1 t.price hhd)
                constructor
                · intro he
                  exact absurd he (by simp)
                · intro _ p hp
                  have hget : grid.get? (i - 1) = some p := by
                    have hp' : pyGet grid ((i : ℤ) - 1) = some p :=
                      Option.mem_def.mp hp
                    rwa [show ((i : ℤ) - 1) = ((i - 1 : ℕ) : ℤ) by omega,
                      pyGet_nat] at hp'
                  have hplt : p < t.price :=
                    pairwise_lt_get grid hg (i - 1) i _ _ hget hgi (by omega)
                  refine ⟨fun he => OrderType.noConfusion he, fun _ => Or.inr ?_⟩
                  exact lt_of_lt_of_le hplt ht'.2.2
            refine ⟨rfl, ?_, ?_⟩
            · intro x hx y hy hxb hyb
              obtain ⟨hylt, z, hz, hza, hzp⟩ := (hall y hy).1 hyb
              rcases (hall x hx).2 hxb with ⟨w, hw, hwb, hwp⟩ | hxlt
              · rw [← hwp, ← hzp]
                exact hnc w hw z hz hwb hza
              · exact lt_trans hxlt hylt
            · intro o ho hoa g0 hg0
              obtain ⟨_, z, hz, hza, hzp⟩ := (hall o ho).1 hoa
              rw [← hzp]
              exact haf z hz hza g0 hg0

theorem build_book_inv (grid : List ℚ) (hg : List.Pairwise (· < ·) grid)
    (bk : OrderBook) (cap : ℚ) (b0 : OrderBook)
    (h : build_book bk cap grid = some b0) :
    b0.price_grid = grid ∧ NoCross b0.orders ∧ AskFloor grid b0.orders := by
  unfold build_book at h
  split_ifs at h with hgr hz1 hz2
  · injection h with h
    subst h
    refine ⟨rfl, ?_, ?_⟩
    · intro x hx
      simp at hx
    · intro o ho
      simp at ho
  · injection h with h
    subst h
    refine ⟨rfl, ?_, ?_⟩
    · intro x hx y hy hxb hyb
      rcases List.mem_append.mp hx with hx' | hx'
      · rcases List.mem_append.mp hy with hy' | hy'
        · obtain ⟨q, _, hq2⟩ := List.mem_map.mp hy'
          rw [← hq2] at hyb
          exact absurd hyb (by simp)
        · obtain ⟨p, hp1, hp2⟩ := List.mem_map.mp hx'
          obtain ⟨q, hq1, hq2⟩ := List.mem_map.mp hy'
          rw [← hp2, ← hq2]
          have hpteq : grid = grid.take ((grid.length - 1) / 2 + 1) ++
              grid.drop ((grid.length - 1) / 2 + 1) :=
            (List.take_append_drop _ _).symm
          have hsplit := (List.pairwise_append.mp (hpteq ▸ hg)).2.2
          have hp1' : p ∈ grid.take ((grid.length - 1) / 2 + 1) := by
            have hmin : min ((grid.length - 1) / 2) ((grid.length - 1) / 2 + 1) =
                (grid.length - 1) / 2 := min_eq_left (by omega)
            have : p ∈ List.take ((grid.length - 1) / 2)
                (grid.take ((grid.length - 1) / 2 + 1)) := by
              rw [List.take_take, hmin]
              exact hp1
            exact List.take_subset _ _ this
          exact hsplit p hp1' q hq1
      · obtain ⟨p, _, hp2⟩ := List.mem_map.mp hx'
        rw [← hp2] at hxb
        exact absurd hxb (by simp)
    · intro o ho hoa g0 hg0
      rcases List.mem_append.mp ho with ho' | ho'
      · obtain ⟨p, _, hp2⟩ := List.mem_map.mp ho'
        rw [← hp2] at hoa
        exact absurd hoa (by simp)
      · obtain ⟨q, hq1, hq2⟩ := List.mem_map.mp ho'
        rw [← hq2]
        cases grid with
        | nil => exact absurd rfl hgr
        | cons g rest =>
          simp only [List.head?] at hg0
          rw [Option.mem_def] at hg0
          injection hg0 with hg0
          subst hg0
          rw [List.drop_succ_cons] at hq1
          have hq1' : q ∈ rest := List.drop_subset _ _ hq1
          exact List.rel_of_pairwise_cons hg hq1'

theorem runCycles_inv (grid : List ℚ) (hg : List.Pairwise (· < ·) grid) :
    ∀ (spots : List ℚ) (b bk : OrderBook),
      b.price_grid = grid → NoCross b.orders → AskFloor grid b.orders →
      runCycles spots b = some bk →
      bk.price_grid = grid ∧ NoCross bk.orders ∧ AskFloor grid bk.orders := by
  intro spots
  induction spots with
  | nil =>
    intro b bk h1 h2 h3 h
    unfold runCycles at h
    simp only [List.foldlM_nil] at h
    injection h with h
    subst h
    exact ⟨h1, h2, h3⟩
  | cons s ss ih =>
    intro b bk h1 h2 h3 h
    unfold runCycles at h
    rw [List.foldlM_cons] at h
    cases hc : cycle s b with
    | none => rw [hc] at h; simp at h
    | some b1 =>
      rw [hc] at h
      simp only [Option.bind_eq_bind, Option.some_bind] at h
      obtain ⟨i1, i2, i3⟩ := cycle_inv grid hg s b b1 h1 h2 h3 hc
      exact ih b1 bk i1 i2 i3 h

/-- C7: starting from a freshly built ladder over a strictly increasing
price grid, every sequence of `arbitrate` followed by `place_dual_offers` on
the returned fills (skipped when there are none, as in
`update_kandel_state`) that runs to completion leaves a ladder in which no
resting Bid is priced at or above any resting Ask — the ladder never
self-crosses after a fill-and-replenish cycle. -/
theorem no_self_cross (grid : List ℚ) (cap p0 : ℚ) (spots : List ℚ)
    (b0 bk : OrderBook) (hg : List.Pairwise (· < ·) grid)
    (hb : build_book { orders := [], current_price := p0, price_grid := [] }
        cap grid = some b0)
    (h : runCycles spots b0 = some bk) :
    NoCross bk.orders := by
  obtain ⟨h1, h2, h3⟩ := build_book_inv grid hg
    { orders := [], current_price := p0, price_grid := [] } cap b0 hb
  exact (runCycles_inv grid hg spots b0 bk h1 h2 h3 h).2.1

theorem no_self_cross_witness :
    List.Pairwise (· < ·) ([1, 2, 3, 4] : List ℚ) ∧
    ∃ b0 bk,
      build_book { orders := [], current_price := 4, price_grid := [] }
        12 [1, 2, 3, 4] = some b0 ∧
      runCycles [1] b0 = some bk ∧ NoCross bk.orders := by
  have hg : List.Pairwise (· < ·) ([1, 2, 3, 4] : List ℚ) := by
    norm_num [List.pairwise_cons]
  have hb : build_book { orders := [], current_price := 4, price_grid := [] }
      12 [1, 2, 3, 4] =
      some { orders := [{ order_type := OrderType.bid, qty := 4, price := 1 },
                        { order_type := OrderType.ask, qty := 1, price := 3 },
                        { order_type := OrderType.ask, qty := 1, price := 4 }],
             current_price := 4, price_grid := [1, 2, 3, 4] } := by
    norm_num [build_book]
    intro hfalse
    exact absurd hfalse (by simp)
  have hrun : runCycles [1]
      { orders := [{ order_type := OrderType.bid, qty := 4, price := 1 },
                   { order_type := OrderType.ask, qty := 1, price := 3 },
                   { order_type := OrderType.ask, qty := 1, price := 4 }],
        current_price := 4, price_grid := [1, 2, 3, 4] } =
      some { orders := [{ order_type := OrderType.ask, qty := 4, price := 2 },
                        { order_type := OrderType.ask, qty := 1, price := 3 },
                        { order_type := OrderType.ask, qty := 1, price := 4 }],
             current_price := 1, price_grid := [1, 2, 3, 4] } := by
    norm_num [runCycles, cycle, arbitrate, place_dual_offers,
      pdLoop, pyIndex, pyGet, addOrderL, addLoop, List.foldlM, List.filter]
    decide
  exact ⟨hg, _, _, hb, hrun, no_self_cross [1, 2, 3, 4] 12 4 [1] _ _ hg hb hrun⟩
